import Mathlib

/-
Verification of the TTS orchestration service (src/main.py) against its
natural-language specification.  Strings are modelled as `List Char`,
Python floats that are only carried around (never computed with) as `Rat`,
raw audio bytes and decoded audio frames as `List Nat`, and the remote
services (Sarvam TTS, AWS Polly, the translators) as explicit oracle
functions supplied in environment records.
-/

set_option maxRecDepth 20000

namespace SarvamTTS

/-- Python whitespace: the characters matched by the `str` pattern `\s` of
`re` and stripped by `str.strip()` / split on by `str.split()` (ASCII
whitespace together with the Unicode whitespace code points). -/
def isPySpace (c : Char) : Bool :=
  c.toNat = 32 || c.toNat = 9 || c.toNat = 10 || c.toNat = 11 || c.toNat = 12 ||
  c.toNat = 13 || c.toNat = 28 || c.toNat = 29 || c.toNat = 30 || c.toNat = 31 ||
  c.toNat = 133 || c.toNat = 160 || c.toNat = 5760 ||
  (8192 ≤ c.toNat && c.toNat ≤ 8202) || c.toNat = 8232 || c.toNat = 8233 ||
  c.toNat = 8239 || c.toNat = 8287 || c.toNat = 12288

/-- The non-whitespace characters of a string, in order. -/
def nonWS (cs : List Char) : List Char := cs.filter (fun c => !(isPySpace c))

/-- Python `str.strip()`: remove leading and trailing whitespace. -/
def pystrip (cs : List Char) : List Char :=
  ((cs.dropWhile isPySpace).reverse.dropWhile isPySpace).reverse

/-- Worker for `pywords`: scans characters, accumulating the current word
in reverse in `cur`. -/
def pywordsAux (cur : List Char) : List Char → List (List Char)
  | [] => if cur = [] then [] else [cur.reverse]
  | c :: rest =>
    if isPySpace c then
      if cur = [] then pywordsAux [] rest
      else cur.reverse :: pywordsAux [] rest
    else pywordsAux (c :: cur) rest

/-- Python `str.split()` with no argument: the maximal whitespace-free runs
of the string (empty strings are never produced). -/
def pywords (cs : List Char) : List (List Char) := pywordsAux [] cs

/-- The sentence-terminating characters of the lookbehind in the pattern
`(?<=[.!?।])\s+|\n\s*\n` at src/main.py:139 (the fourth one is the
Devanagari danda). -/
def SENT_TERM : List Char := ['.', '!', '?', '।']

def isTermPrev : Option Char → Bool
  | some c => c ∈ SENT_TERM
  | none => false

/-- Characters of a whitespace run strictly before its first newline. -/
def beforeFirstNl (buf : List Char) : List Char :=
  buf.takeWhile (fun c => !(c = '\n'))

/-- Characters of a whitespace run strictly after its last newline. -/
def afterLastNl (buf : List Char) : List Char :=
  (buf.reverse.takeWhile (fun c => !(c = '\n'))).reverse

def countNl (buf : List Char) : Nat := buf.countP (fun c => c = '\n')

/-- State of the left-to-right scanner implementing
`re.split(r'(?<=[.!?।])\s+|\n\s*\n', text)` from src/main.py:139.
`parts` are the finished split parts, `cur` the part being built, `run`
(when present) the pending whitespace run together with the character that
preceded it, `prev` the last character consumed outside a run. -/
structure SplitState where
  parts : List (List Char)
  cur : List Char
  run : Option (Option Char × List Char)
  prev : Option Char
deriving DecidableEq

/-- Resolve a finished (maximal) whitespace run `buf` preceded by `p` and
followed by the non-whitespace character `c`.  A match of the first
alternative `(?<=[.!?।])\s+` (tried first, at the start of the run)
consumes the whole run; otherwise the second alternative `\n\s*\n` matches
from the first to the last newline of the run when it holds at least two
newlines; otherwise the run is ordinary text of the current part. -/
def resolveRun (st : SplitState) (p : Option Char) (buf : List Char) (c : Char) :
    SplitState :=
  if isTermPrev p then
    ⟨st.parts ++ [st.cur], [c], none, some c⟩
  else if 2 ≤ countNl buf then
    ⟨st.parts ++ [st.cur ++ beforeFirstNl buf], afterLastNl buf ++ [c], none, some c⟩
  else
    ⟨st.parts, st.cur ++ buf ++ [c], none, some c⟩

/-- One scanner step of the `re.split` model. -/
def stepSplit (st : SplitState) (c : Char) : SplitState :=
  match st.run with
  | none =>
    if isPySpace c then ⟨st.parts, st.cur, some (st.prev, [c]), st.prev⟩
    else ⟨st.parts, st.cur ++ [c], none, some c⟩
  | some (p, buf) =>
    if isPySpace c then ⟨st.parts, st.cur, some (p, buf ++ [c]), st.prev⟩
    else resolveRun st p buf c

/-- Close the scanner at end of input (a run ending at the end of the
string is resolved the same way; a match reaching the end of the string
leaves a final empty part, as `re.split` does). -/
def finishSplit (st : SplitState) : List (List Char) :=
  match st.run with
  | none => st.parts ++ [st.cur]
  | some (p, buf) =>
    if isTermPrev p then st.parts ++ [st.cur, []]
    else if 2 ≤ countNl buf then
      st.parts ++ [st.cur ++ beforeFirstNl buf, afterLastNl buf]
    else st.parts ++ [st.cur ++ buf]

/-- Model of `re.split(r'(?<=[.!?।])\s+|\n\s*\n', text)` (src/main.py:139):
split on runs of whitespace preceded by a sentence terminator, and on
blank-line paragraph breaks. -/
def pysplit (cs : List Char) : List (List Char) :=
  finishSplit (cs.foldl stepSplit ⟨[], [], none, none⟩)

/-- Fuelled worker for `pyslices`; the fuel starts at the length of the
string, which suffices since every step drops at least one character when
the window size is positive. -/
def slicesFuel : Nat → List Char → Nat → List (List Char)
  | 0, _, _ => []
  | _ + 1, [], _ => []
  | fuel + 1, cs, maxc => cs.take maxc :: slicesFuel fuel (cs.drop maxc) maxc

/-- Python `[chunk[i:i + max_chars] for i in range(0, len(chunk), max_chars)]`
(src/main.py:175-176): hard-slice a string into windows of `max_chars`. -/
def pyslices (cs : List Char) (maxc : Nat) : List (List Char) :=
  slicesFuel cs.length cs maxc

/-- One step of the word-level greedy packing loop (src/main.py:152-162);
state is the pair (chunks built so far, current temp chunk). -/
def processWord (max_chars : Nat) (st : List (List Char) × List Char)
    (word : List Char) : List (List Char) × List Char :=
  if (st.2 ++ ' ' :: word).length ≤ max_chars then
    (st.1, if st.2 ≠ [] then st.2 ++ ' ' :: word else word)
  else
    (if st.2 ≠ [] then st.1 ++ [pystrip st.2] else st.1, word)

/-- One step of the sentence-level greedy accumulation loop
(src/main.py:142-164); state is the pair (chunks, current_chunk). -/
def processSentence (max_chars : Nat) (st : List (List Char) × List Char)
    (sentence0 : List Char) : List (List Char) × List Char :=
  let sentence := pystrip sentence0
  if sentence = [] then st
  else if max_chars < (st.2 ++ ' ' :: sentence).length then
    if st.2 ≠ [] then (st.1 ++ [pystrip st.2], sentence)
    else
      let r := (pywords sentence).foldl (processWord max_chars) (st.1, [])
      if r.2 ≠ [] then (r.1, r.2) else (r.1, st.2)
  else (st.1, if st.2 ≠ [] then st.2 ++ ' ' :: sentence else sentence)

/-- The trailing `if current_chunk: chunks.append(current_chunk.strip())`
(src/main.py:166-167). -/
def closeChunks (st : List (List Char) × List Char) : List (List Char) :=
  if st.2 ≠ [] then st.1 ++ [pystrip st.2] else st.1

/-- The chunk list before the final safety split (src/main.py:139-167):
sentence split, greedy accumulation, and the closing append of the last
current chunk. -/
def buildChunks (text : List Char) (max_chars : Nat) : List (List Char) :=
  closeChunks ((pysplit (pystrip text)).foldl (processSentence max_chars) ([], []))

/-- Model of `chunk_text` (src/main.py:135-177): fast path for short
inputs, sentence/word greedy chunking, then the final safety split that
hard-slices any remaining over-long chunk. -/
def chunk_text (text : List Char) (max_chars : Nat) : List (List Char) :=
  if text.length ≤ max_chars then [text]
  else
    (buildChunks text max_chars).flatMap (fun chunk =>
      if chunk.length ≤ max_chars then [chunk] else pyslices chunk max_chars)

/-- Safe chunk-size limits (src/main.py:45-48). -/
def TTS_MAX_CHARS : Nat := 250

def POLLY_MAX_CHARS : Nat := 3000

def TRANSLATE_MAX_CHARS : Nat := 1000

/-- Indian language codes supported by Sarvam (src/main.py:55-59). -/
def INDIAN_LANGUAGES : List (List Char) :=
  [("bn-IN".data), ("en-IN".data), ("gu-IN".data), ("hi-IN".data), ("kn-IN".data),
   ("ml-IN".data), ("mr-IN".data), ("od-IN".data), ("pa-IN".data), ("ta-IN".data),
   ("te-IN".data), ("as-IN".data), ("brx-IN".data), ("doi-IN".data), ("kok-IN".data),
   ("ks-IN".data), ("mai-IN".data), ("mni-IN".data), ("ne-IN".data), ("sa-IN".data),
   ("sat-IN".data), ("sd-IN".data), ("ur-IN".data)]

/-- AWS Polly supported languages and voices (src/main.py:62-94), a mapping
from language code to its voice list. -/
def POLLY_LANGUAGES : List (List Char × List (List Char)) :=
  [(("en-US".data), [("Joanna".data), ("Matthew".data), ("Ivy".data), ("Justin".data),
      ("Kendra".data), ("Kimberly".data), ("Salli".data), ("Joey".data), ("Ruth".data),
      ("Stephen".data)]),
   (("en-GB".data), [("Amy".data), ("Emma".data), ("Brian".data), ("Arthur".data)]),
   (("en-AU".data), [("Nicole".data), ("Russell".data), ("Olivia".data)]),
   (("es-ES".data), [("Conchita".data), ("Lucia".data), ("Enrique".data)]),
   (("es-MX".data), [("Mia".data)]),
   (("es-US".data), [("Penelope".data), ("Miguel".data), ("Lupe".data)]),
   (("fr-FR".data), [("Celine".data), ("Lea".data), ("Mathieu".data)]),
   (("fr-CA".data), [("Chantal".data), ("Gabrielle".data)]),
   (("de-DE".data), [("Marlene".data), ("Vicki".data), ("Hans".data), ("Daniel".data)]),
   (("it-IT".data), [("Carla".data), ("Bianca".data), ("Giorgio".data)]),
   (("pt-BR".data), [("Vitoria".data), ("Camila".data), ("Ricardo".data)]),
   (("pt-PT".data), [("Ines".data), ("Cristiano".data)]),
   (("ja-JP".data), [("Mizuki".data), ("Takumi".data)]),
   (("ko-KR".data), [("Seoyeon".data)]),
   (("zh-CN".data), [("Zhiyu".data)]),
   (("ar-AE".data), [("Zeina".data)]),
   (("hi-IN".data), [("Aditi".data), ("Raveena".data)]),
   (("tr-TR".data), [("Filiz".data)]),
   (("ru-RU".data), [("Tatyana".data), ("Maxim".data)]),
   (("nl-NL".data), [("Lotte".data), ("Ruben".data)]),
   (("sv-SE".data), [("Astrid".data)]),
   (("da-DK".data), [("Naja".data), ("Mads".data)]),
   (("no-NO".data), [("Liv".data)]),
   (("pl-PL".data), [("Ewa".data), ("Maja".data), ("Jacek".data), ("Jan".data)]),
   (("ro-RO".data), [("Carmen".data)]),
   (("ca-ES".data), [("Arlet".data)]),
   (("is-IS".data), [("Dora".data), ("Karl".data)]),
   (("cy-GB".data), [("Gwyneth".data)]),
   (("cmn-CN".data), [("Zhiyu".data)]),
   (("yue-CN".data), [("Hiujin".data)]),
   (("nb-NO".data), [("Liv".data)])]

/-- Python dictionary lookup: the value bound to the first matching key,
`none` when the key is absent. -/
def lookupKey {α β : Type} [DecidableEq α] (k : α) : List (α × β) → Option β
  | [] => none
  | (a, b) :: rest => if a = k then some b else lookupKey k rest

/-- Model of `is_indian_language` (src/main.py:116-118): membership of the
language code in the fixed `INDIAN_LANGUAGES` set. -/
def is_indian_language (lang_code : List Char) : Bool :=
  decide (lang_code ∈ INDIAN_LANGUAGES)

/-- Python truthiness of an optional string (`None` and `""` are falsy). -/
def pyTruthy : Option (List Char) → Bool
  | some s => !s.isEmpty
  | none => false

/-- Model of `get_polly_voice` (src/main.py:120-132): default the language
to en-US when unsupported, then return the requested voice when it is
listed for that language, else the first listed voice.  The result is an
`Option` because Python's `available_voices[0]` would raise on an empty
voice list (which never happens with the static table). -/
def get_polly_voice (lang_code : List Char) (requested_voice : Option (List Char)) :
    Option (List Char) :=
  let lc := if lookupKey lang_code POLLY_LANGUAGES = none then ("en-US".data)
            else lang_code
  match lookupKey lc POLLY_LANGUAGES with
  | none => none
  | some available_voices =>
    if pyTruthy requested_voice && (requested_voice.getD []) ∈ available_voices then
      requested_voice
    else available_voices.head?

/-- A Python value appearing as a keyword argument of `generate_cache_key`:
a string, an optional string, a number (`float` carried around unchanged,
modelled as a rational), or a boolean. -/
inductive PyVal where
  | s (v : List Char)
  | os (v : Option (List Char))
  | num (v : Rat)
  | b (v : Bool)
deriving DecidableEq

/-- Lexicographic comparison of keyword names, used to model Python's
`sorted(kwargs.items())` (keyword names are pairwise distinct). -/
def keyLe : List Char → List Char → Bool
  | [], _ => true
  | _ :: _, [] => false
  | a :: as, b :: bs => if a = b then keyLe as bs else decide (a < b)

def insertKw (p : List Char × PyVal) :
    List (List Char × PyVal) → List (List Char × PyVal)
  | [] => [p]
  | q :: rest => if keyLe p.1 q.1 then p :: q :: rest else q :: insertKw p rest

def sortKw : List (List Char × PyVal) → List (List Char × PyVal)
  | [] => []
  | p :: rest => insertKw p (sortKw rest)

/-- Model of `generate_cache_key` (src/main.py:111-114) up to the final
MD5.  The source hashes the rendering `f"{text}_{str(sorted(kwargs.items()))}"`;
since MD5 is a fixed pure function, requests collide in the cache exactly
when this pre-hash payload (text together with the sorted keyword list)
coincides, so the payload itself is taken as the key. -/
def generate_cache_key (text : List Char) (kwargs : List (List Char × PyVal)) :
    List Char × List (List Char × PyVal) :=
  (text, sortKw kwargs)

/-- The request body of the /tts endpoint (src/main.py:96-109). -/
structure TTSRequest where
  input_text : List Char
  source_lang : List Char := ("auto".data)
  target_lang : List Char := ("hi-IN".data)
  speaker : List Char := ("abhilash".data)
  voice : Option (List Char) := none
  pitch : Rat := 0
  pace : Rat := 1
  loudness : Rat := 1
  speech_sample_rate : Int := 24000
  enable_preprocessing : Bool := false
  engine : List Char := ("standard".data)
  output_format : List Char := ("mp3".data)
deriving DecidableEq

/-- The audio-cache key computed by `text_to_speech` (src/main.py:398-409):
`generate_cache_key` applied to the input text and the ten keyword
arguments the endpoint passes. -/
def tts_cache_key (r : TTSRequest) : List Char × List (List Char × PyVal) :=
  generate_cache_key r.input_text
    [(("source_lang".data), .s r.source_lang),
     (("target_lang".data), .s r.target_lang),
     (("speaker".data), .s r.speaker),
     (("voice".data), .os r.voice),
     (("pitch".data), .num r.pitch),
     (("pace".data), .num r.pace),
     (("loudness".data), .num r.loudness),
     (("engine".data), .s r.engine),
     (("output_format".data), .s r.output_format)]

/-- Remote-service oracles for `synthesize_speech_sarvam`.  `convert` is
the Sarvam backend call for the chunk at a given position together with
the base64 decode of its payload (the other call parameters — speaker,
pitch, pace, loudness, sample rate, preprocessing flag — are fixed for
the whole request and absorbed into the oracle); `fromWav` / `fromMp3`
are the pydub container decoders (`none` models a decode exception);
`fromRaw` is the raw-PCM last-resort interpretation at the given sample
rate, which always yields a segment.  Decoded audio segments are frame
lists; `AudioSegment.silent(duration=d)` is `List.replicate d 0` and the
final WAV export is modelled as the identity on the frame list. -/
structure SarvamEnv where
  convert : Nat → List Char → Except (List Char) (List Nat)
  fromWav : List Nat → Option (List Nat)
  fromMp3 : List Nat → Option (List Nat)
  fromRaw : List Nat → Int → List Nat

/-- The per-chunk body of the multi-chunk loop of
`synthesize_speech_sarvam` (src/main.py:265-299): call the backend,
decode as WAV, then MP3, then raw PCM; any backend failure is replaced by
one second (1000 ms) of silence. -/
def sarvam_chunk_segment (env : SarvamEnv) (i : Nat) (chunk : List Char)
    (sample_rate : Int) : List Nat :=
  match env.convert i chunk with
  | .error _ => List.replicate 1000 0
  | .ok audio_data =>
    match env.fromWav audio_data with
    | some seg => seg
    | none =>
      match env.fromMp3 audio_data with
      | some seg => seg
      | none => env.fromRaw audio_data sample_rate

/-- Concatenate decoded segments, inserting 200 ms of silence between
consecutive segments (src/main.py:304-307). -/
def merge_with_gaps (segs : List (List Nat)) : List Nat :=
  match segs with
  | [] => []
  | s :: rest => rest.foldl (fun acc seg => acc ++ List.replicate 200 0 ++ seg) s

/-- Model of `synthesize_speech_sarvam` (src/main.py:242-311): chunk the
text at `TTS_MAX_CHARS`; on a single chunk, one unguarded backend call
whose decoded payload is returned directly; otherwise synthesize each
chunk with silence substituted for per-chunk failures, raise if no
segments at all were produced, and export the merged track. -/
def synthesize_speech_sarvam (env : SarvamEnv) (text : List Char)
    (sample_rate : Int) : Except (List Char) (List Nat) :=
  let chunks := chunk_text text TTS_MAX_CHARS
  if chunks.length = 1 then
    match env.convert 0 (chunks.headD []) with
    | .ok audio_data => .ok audio_data
    | .error e => .error e
  else
    let audio_segments :=
      chunks.enum.map (fun p => sarvam_chunk_segment env p.1 p.2 sample_rate)
    if audio_segments = [] then
      .error ("Failed to generate audio with Sarvam".data)
    else .ok (merge_with_gaps audio_segments)

/-- Remote-service oracles for `synthesize_speech_polly`; `configured`
models whether the boto3 Polly client was constructed at startup, `synth`
the Polly call for the chunk at a given position (voice, language, engine
and output format are fixed for the whole request and absorbed into the
oracle), the decoders as in `SarvamEnv` (Polly's raw fallback uses the
fixed frame rate 22050). -/
structure PollyEnv where
  configured : Bool
  synth : Nat → List Char → Except (List Char) (List Nat)
  fromMp3 : List Nat → Option (List Nat)
  fromWav : List Nat → Option (List Nat)
  fromRaw : List Nat → List Nat

/-- The per-chunk body of the multi-chunk loop of
`synthesize_speech_polly` (src/main.py:342-372): decode by the declared
output format first, fall back to raw PCM, and substitute one second of
silence on a backend failure. -/
def polly_chunk_segment (env : PollyEnv) (i : Nat) (chunk : List Char)
    (output_format : List Char) : List Nat :=
  match env.synth i chunk with
  | .error _ => List.replicate 1000 0
  | .ok audio_data =>
    match (if output_format = ("mp3".data) then env.fromMp3 audio_data
           else env.fromWav audio_data) with
    | some seg => seg
    | none => env.fromRaw audio_data

/-- Model of `synthesize_speech_polly` (src/main.py:314-388): same
structure as the Sarvam adapter with the larger `POLLY_MAX_CHARS` limit,
a configuration check, and format-directed decoding. -/
def synthesize_speech_polly (env : PollyEnv) (text : List Char)
    (output_format : List Char) : Except (List Char) (List Nat) :=
  if !env.configured then .error ("AWS Polly client not configured".data)
  else
    let chunks := chunk_text text POLLY_MAX_CHARS
    if chunks.length = 1 then
      match env.synth 0 (chunks.headD []) with
      | .ok audio_data => .ok audio_data
      | .error e => .error (("Polly synthesis failed: ".data) ++ e)
    else
      let audio_segments :=
        chunks.enum.map (fun p => polly_chunk_segment env p.1 p.2 output_format)
      if audio_segments = [] then
        .error ("Failed to generate audio with Polly".data)
      else .ok (merge_with_gaps audio_segments)

/-- Environment of the /tts orchestrator: the translation adapter
(`translate_text(text, source_lang, target_lang)`, whose internals —
remote translator with generative fallback and its own cache — are out of
the verified core) and the two synthesis backends. -/
structure TTSEnv where
  translate : List Char → List Char → List Char → List Char
  sarvam : SarvamEnv
  polly : PollyEnv

/-- Python `request.voice or request.speaker` (src/main.py:441): the voice
when it is a truthy string, else the speaker. -/
def pyOr (v : Option (List Char)) (d : List Char) : List Char :=
  match v with
  | some s => if s ≠ [] then s else d
  | none => d

/-- Python `target_lang.split('-')[0]`: the primary language subtag. -/
def primaryTag (lang : List Char) : List Char :=
  lang.takeWhile (fun c => !(c = '-'))

/-- The text handed to synthesis (src/main.py:416-423): the input text is
translated unless the source language is not "auto" and already equals
the primary subtag of the target language. -/
def speak_text (env : TTSEnv) (r : TTSRequest) : List Char :=
  if r.source_lang = ("auto".data) ∨ r.source_lang ≠ primaryTag r.target_lang then
    env.translate r.input_text r.source_lang r.target_lang
  else r.input_text

/-- The media type of the Polly response (src/main.py:449). -/
def polly_media_type (output_format : List Char) : List Char :=
  if output_format = ("mp3".data) then ("audio/mp3".data) else ("audio/wav".data)

/-- The Sarvam arm of the /tts endpoint (src/main.py:426-438): Sarvam
synthesis of the prepared text, WAV media type, failures surfaced as a
generic 500 error by the top-level handler (src/main.py:459-460). -/
def sarvam_branch (env : TTSEnv) (r : TTSRequest) :
    Except (Nat × List Char) (List Char × List Nat) :=
  match synthesize_speech_sarvam env.sarvam (speak_text env r)
      r.speech_sample_rate with
  | .ok audio_data => .ok (("audio/wav".data), audio_data)
  | .error e => .error (500, e)

/-- The Polly arm of the /tts endpoint (src/main.py:439-449): voice
selection through `get_polly_voice`, Polly synthesis, format-dependent
media type; failures (including the unreachable empty-voice-table lookup)
surfaced as a generic 500 error by the top-level handler. -/
def polly_branch (env : TTSEnv) (r : TTSRequest) :
    Except (Nat × List Char) (List Char × List Nat) :=
  match get_polly_voice r.target_lang (some (pyOr r.voice r.speaker)) with
  | none => .error (500, ("list index out of range".data))
  | some _voice_id =>
    match synthesize_speech_polly env.polly (speak_text env r) r.output_format with
    | .ok audio_data => .ok (polly_media_type r.output_format, audio_data)
    | .error e => .error (500, e)

/-- Model of the /tts endpoint `text_to_speech` (src/main.py:394-460):
serve the audio cache when the request's cache key is present, otherwise
translate if needed and route synthesis by `is_indian_language`; the
result is the response body (media type and audio bytes) or the
HTTP status 500 with the failure's description. -/
def text_to_speech (env : TTSEnv)
    (audio_cache : List ((List Char × List (List Char × PyVal)) × List Nat))
    (r : TTSRequest) : Except (Nat × List Char) (List Char × List Nat) :=
  match lookupKey (tts_cache_key r) audio_cache with
  | some audio_data => .ok (polly_media_type r.output_format, audio_data)
  | none =>
    if is_indian_language r.target_lang then sarvam_branch env r
    else polly_branch env r

/-! Basic facts about `nonWS`, `pystrip` and `pywords`. -/

theorem nonWS_append (a b : List Char) : nonWS (a ++ b) = nonWS a ++ nonWS b :=
  List.filter_append ..

theorem nonWS_nil : nonWS [] = [] := rfl

theorem nonWS_cons_ws {c : Char} (h : isPySpace c = true) (l : List Char) :
    nonWS (c :: l) = nonWS l := by
  simp [nonWS, List.filter_cons, h]

theorem nonWS_cons_not_ws {c : Char} (h : isPySpace c = false) (l : List Char) :
    nonWS (c :: l) = c :: nonWS l := by
  simp [nonWS, List.filter_cons, h]

theorem nonWS_eq_nil_of_allWS {l : List Char}
    (h : ∀ c ∈ l, isPySpace c = true) : nonWS l = [] := by
  refine List.filter_eq_nil_iff.2 (fun a ha => ?_)
  simp [h a ha]

theorem mem_of_mem_takeWhile {p : Char → Bool} {a : Char} :
    ∀ {l : List Char}, a ∈ l.takeWhile p → a ∈ l := by
  intro l
  induction l with
  | nil => intro h; simp [List.takeWhile] at h
  | cons c t ih =>
    intro h
    by_cases hc : p c = true
    · rw [List.takeWhile_cons, if_pos hc] at h
      rcases List.mem_cons.1 h with h | h
      · exact h ▸ List.mem_cons_self ..
      · exact List.mem_cons_of_mem _ (ih h)
    · rw [List.takeWhile_cons, if_neg hc] at h
      cases h

theorem nonWS_dropWhile_ws (l : List Char) :
    nonWS (l.dropWhile isPySpace) = nonWS l := by
  induction l with
  | nil => rfl
  | cons c t ih =>
    by_cases hc : isPySpace c = true
    · rw [List.dropWhile_cons, if_pos hc, ih, nonWS_cons_ws hc]
    · rw [List.dropWhile_cons, if_neg hc]

theorem nonWS_reverse (l : List Char) : nonWS l.reverse = (nonWS l).reverse :=
  List.filter_reverse ..

theorem nonWS_pystrip (l : List Char) : nonWS (pystrip l) = nonWS l := by
  unfold pystrip
  rw [nonWS_reverse, nonWS_dropWhile_ws, nonWS_reverse, List.reverse_reverse,
    nonWS_dropWhile_ws]

/-- A string whose first and last characters (when present) are not
whitespace; `str.strip()` is the identity on such strings. -/
def NoEdgeWS (cs : List Char) : Prop :=
  (∀ c, cs.head? = some c → isPySpace c = false) ∧
  (∀ c, cs.getLast? = some c → isPySpace c = false)

theorem noEdgeWS_nil : NoEdgeWS [] := by
  constructor <;> intro c h <;> simp [List.head?, List.getLast?] at h

theorem head?_dropWhile_not {p : Char → Bool} :
    ∀ {l : List Char} {c : Char}, (l.dropWhile p).head? = some c → p c = false := by
  intro l
  induction l with
  | nil => intro c h; simp [List.dropWhile] at h
  | cons a t ih =>
    intro c h
    by_cases ha : p a = true
    · rw [List.dropWhile_cons, if_pos ha] at h; exact ih h
    · rw [List.dropWhile_cons, if_neg ha] at h
      simp only [List.head?_cons, Option.some.injEq] at h
      rw [← h]
      exact Bool.eq_false_iff.2 ha

theorem dropWhile_eq_self_of_head {p : Char → Bool} {l : List Char}
    (h : ∀ c, l.head? = some c → p c = false) : l.dropWhile p = l := by
  cases l with
  | nil => rfl
  | cons a t =>
    rw [List.dropWhile_cons, if_neg]
    simp [h a rfl]

theorem getLast?_dropWhile {p : Char → Bool} {l : List Char}
    (h : l.dropWhile p ≠ []) : (l.dropWhile p).getLast? = l.getLast? := by
  conv_rhs => rw [← List.takeWhile_append_dropWhile p l]
  rw [List.getLast?_append_of_ne_nil _ h]

theorem noEdgeWS_pystrip (l : List Char) : NoEdgeWS (pystrip l) := by
  unfold pystrip
  set m := (l.dropWhile isPySpace).reverse with hm
  by_cases hnil : m.dropWhile isPySpace = []
  · rw [hnil]; exact noEdgeWS_nil
  constructor
  · intro c hc
    rw [List.head?_reverse, getLast?_dropWhile hnil, hm, List.getLast?_reverse] at hc
    exact head?_dropWhile_not ((dropWhile_eq_self_of_head
      (fun d hd => head?_dropWhile_not hd)).symm ▸ hc)
  · intro c hc
    rw [List.getLast?_reverse] at hc
    exact head?_dropWhile_not hc

theorem pystrip_eq_self {l : List Char} (h : NoEdgeWS l) : pystrip l = l := by
  unfold pystrip
  rw [dropWhile_eq_self_of_head h.1, dropWhile_eq_self_of_head
    (by intro c hc; exact h.2 c (by rwa [List.head?_reverse] at hc)),
    List.reverse_reverse]

theorem pystrip_ne_nil {l : List Char} (hne : l ≠ []) (h : NoEdgeWS l) :
    pystrip l ≠ [] := by
  rw [pystrip_eq_self h]; exact hne

theorem head?_append_left {α : Type} {a : List α} (b : List α) (h : a ≠ []) :
    (a ++ b).head? = a.head? := by
  cases a with
  | nil => exact absurd rfl h
  | cons x t => rfl

theorem noEdgeWS_join_space {a b : List Char} (ha : a ≠ []) (hb : b ≠ [])
    (hA : NoEdgeWS a) (hB : NoEdgeWS b) : NoEdgeWS (a ++ ' ' :: b) := by
  constructor
  · intro c hc
    rw [head?_append_left _ ha] at hc
    exact hA.1 c hc
  · intro c hc
    rw [List.getLast?_append_of_ne_nil _ (by simp)] at hc
    cases b with
    | nil => exact absurd rfl hb
    | cons y t => rw [List.getLast?_cons_cons] at hc; exact hB.2 c hc

theorem nonWS_eq_self_of_not_ws {l : List Char}
    (h : ∀ c ∈ l, isPySpace c = false) : nonWS l = l :=
  List.filter_eq_self.2 (fun a ha => by simp [h a ha])

theorem pywordsAux_flatten_nonWS :
    ∀ (cs cur : List Char), (∀ c ∈ cur, isPySpace c = false) →
      nonWS ((pywordsAux cur cs).flatten) = cur.reverse ++ nonWS cs := by
  intro cs
  induction cs with
  | nil =>
    intro cur h
    by_cases hc : cur = []
    · subst hc; simp [pywordsAux, nonWS]
    · rw [pywordsAux, if_neg hc]
      simp only [List.flatten_cons, List.flatten_nil, List.append_nil]
      rw [nonWS_eq_self_of_not_ws (fun c hm => h c (List.mem_reverse.1 hm))]
      simp [nonWS]
  | cons c rest ih =>
    intro cur h
    by_cases hws : isPySpace c = true
    · rw [pywordsAux, if_pos hws]
      by_cases hc : cur = []
      · subst hc
        rw [if_pos rfl, ih [] (by intro x hx; cases hx), nonWS_cons_ws hws]
      · rw [if_neg hc]
        simp only [List.flatten_cons]
        rw [nonWS_append, ih [] (by intro x hx; cases hx),
          nonWS_eq_self_of_not_ws (fun d hm => h d (List.mem_reverse.1 hm)),
          nonWS_cons_ws hws]
        simp
    · rw [pywordsAux, if_neg hws]
      have hws' : isPySpace c = false := Bool.eq_false_iff.2 hws
      rw [ih (c :: cur) (by
        intro d hd
        rcases List.mem_cons.1 hd with h1 | h1
        · exact h1 ▸ hws'
        · exact h d h1), nonWS_cons_not_ws hws']
      simp

theorem pywords_flatten_nonWS (s : List Char) :
    nonWS ((pywords s).flatten) = nonWS s := by
  rw [pywords, pywordsAux_flatten_nonWS s [] (by intro x hx; cases hx)]
  rfl

theorem pywordsAux_sound :
    ∀ (cs cur : List Char), (∀ c ∈ cur, isPySpace c = false) →
      ∀ w ∈ pywordsAux cur cs, w ≠ [] ∧ ∀ c ∈ w, isPySpace c = false := by
  intro cs
  induction cs with
  | nil =>
    intro cur h w hw
    by_cases hc : cur = []
    · subst hc; rw [pywordsAux, if_pos rfl] at hw; cases hw
    · rw [pywordsAux, if_neg hc] at hw
      rcases List.mem_singleton.1 hw with rfl
      exact ⟨by simpa using hc, fun c hm => h c (List.mem_reverse.1 hm)⟩
  | cons c rest ih =>
    intro cur h w hw
    by_cases hws : isPySpace c = true
    · rw [pywordsAux, if_pos hws] at hw
      by_cases hc : cur = []
      · subst hc; rw [if_pos rfl] at hw
        exact ih [] (by intro x hx; cases hx) w hw
      · rw [if_neg hc] at hw
        rcases List.mem_cons.1 hw with rfl | hmem
        · exact ⟨by simpa using hc, fun d hm => h d (List.mem_reverse.1 hm)⟩
        · exact ih [] (by intro x hx; cases hx) w hmem
    · rw [pywordsAux, if_neg hws] at hw
      refine ih (c :: cur) ?_ w hw
      intro d hd
      rcases List.mem_cons.1 hd with h1 | h1
      · exact h1 ▸ Bool.eq_false_iff.2 hws
      · exact h d h1

theorem pywords_sound (s : List Char) :
    ∀ w ∈ pywords s, w ≠ [] ∧ ∀ c ∈ w, isPySpace c = false :=
  pywordsAux_sound s [] (by intro x hx; cases hx)

/-! Facts about the safety-slicing pass. -/

theorem slicesFuel_succ_cons (n : Nat) (c : Char) (t : List Char) (maxc : Nat) :
    slicesFuel (n + 1) (c :: t) maxc
      = (c :: t).take maxc :: slicesFuel n ((c :: t).drop maxc) maxc := rfl

theorem slicesFuel_flatten :
    ∀ (n : Nat) (cs : List Char) (maxc : Nat), 1 ≤ maxc → cs.length ≤ n →
      (slicesFuel n cs maxc).flatten = cs := by
  intro n
  induction n with
  | zero =>
    intro cs maxc _ hlen
    rw [List.length_eq_zero.1 (Nat.le_zero.1 hlen)]
    rfl
  | succ n ih =>
    intro cs maxc hm hlen
    cases cs with
    | nil => rfl
    | cons c t =>
      rw [slicesFuel_succ_cons, List.flatten_cons, ih _ maxc hm ?_,
        List.take_append_drop]
      have : 1 ≤ (c :: t).length := by simp
      rw [List.length_drop]
      omega

theorem slicesFuel_length_le :
    ∀ (n : Nat) (cs : List Char) (maxc : Nat),
      ∀ s ∈ slicesFuel n cs maxc, s.length ≤ maxc := by
  intro n
  induction n with
  | zero => intro cs maxc s hs; cases hs
  | succ n ih =>
    intro cs maxc s hs
    cases cs with
    | nil => cases hs
    | cons c t =>
      rw [slicesFuel_succ_cons] at hs
      rcases List.mem_cons.1 hs with rfl | hmem
      · rw [List.length_take]; exact Nat.min_le_left ..
      · exact ih _ maxc s hmem

theorem slicesFuel_ne_nil :
    ∀ (n : Nat) (cs : List Char) (maxc : Nat), 1 ≤ maxc →
      ∀ s ∈ slicesFuel n cs maxc, s ≠ [] := by
  intro n
  induction n with
  | zero => intro cs maxc _ s hs; cases hs
  | succ n ih =>
    intro cs maxc hm s hs
    cases cs with
    | nil => cases hs
    | cons c t =>
      rw [slicesFuel_succ_cons] at hs
      rcases List.mem_cons.1 hs with rfl | hmem
      · cases maxc with
        | zero => cases hm
        | succ k => simp [List.take_cons]
      · exact ih _ maxc hm s hmem

theorem pyslices_flatten {cs : List Char} {maxc : Nat} (h : 1 ≤ maxc) :
    (pyslices cs maxc).flatten = cs :=
  slicesFuel_flatten cs.length cs maxc h (Nat.le_refl _)

/-! Content preservation of the `re.split` scanner. -/

/-- The pending whitespace run of a scanner state. -/
def runBuf (st : SplitState) : List Char :=
  match st.run with
  | none => []
  | some (_, b) => b

/-- All characters consumed by the scanner so far, in order. -/
def stContent (st : SplitState) : List Char :=
  st.parts.flatten ++ st.cur ++ runBuf st

/-- Invariant: the pending run holds only whitespace. -/
def RunWS (st : SplitState) : Prop := ∀ c ∈ runBuf st, isPySpace c = true

theorem mem_of_mem_beforeFirstNl {buf : List Char} {c : Char}
    (h : c ∈ beforeFirstNl buf) : c ∈ buf :=
  mem_of_mem_takeWhile h

theorem mem_of_mem_afterLastNl {buf : List Char} {c : Char}
    (h : c ∈ afterLastNl buf) : c ∈ buf := by
  unfold afterLastNl at h
  exact List.mem_reverse.1 (mem_of_mem_takeWhile (List.mem_reverse.1 h))

theorem stepSplit_content {st : SplitState} (hws : RunWS st) (c : Char) :
    nonWS (stContent (stepSplit st c)) = nonWS (stContent st ++ [c]) ∧
      RunWS (stepSplit st c) := by
  obtain ⟨parts, cur, run, prev⟩ := st
  rcases run with _ | ⟨p, buf⟩
  · by_cases hc : isPySpace c = true
    · refine ⟨?_, ?_⟩
      · simp [stepSplit, hc, stContent, runBuf]
      · intro d hd
        simp only [stepSplit, if_pos hc, runBuf] at hd
        rcases List.mem_singleton.1 hd with rfl
        exact hc
    · refine ⟨?_, ?_⟩
      · simp [stepSplit, hc, stContent, runBuf]
      · intro d hd
        simp only [stepSplit, if_neg hc, runBuf] at hd
        cases hd
  · have hbuf : ∀ d ∈ buf, isPySpace d = true := by
      intro d hd
      exact hws d (by simpa [runBuf] using hd)
    have hnilbuf : nonWS buf = [] := nonWS_eq_nil_of_allWS hbuf
    have hbef : nonWS (beforeFirstNl buf) = [] :=
      nonWS_eq_nil_of_allWS (fun d hd => hbuf d (mem_of_mem_beforeFirstNl hd))
    have haft : nonWS (afterLastNl buf) = [] :=
      nonWS_eq_nil_of_allWS (fun d hd => hbuf d (mem_of_mem_afterLastNl hd))
    by_cases hc : isPySpace c = true
    · refine ⟨?_, ?_⟩
      · simp [stepSplit, hc, stContent, runBuf]
      · intro d hd
        simp only [stepSplit, if_pos hc, runBuf] at hd
        rcases List.mem_append.1 hd with h1 | h1
        · exact hbuf d h1
        · rcases List.mem_singleton.1 h1 with rfl; exact hc
    · have hstep : stepSplit ⟨parts, cur, some (p, buf), prev⟩ c
          = resolveRun ⟨parts, cur, some (p, buf), prev⟩ p buf c := by
        simp [stepSplit, hc]
      rw [hstep]
      by_cases hterm : isTermPrev p = true
      · refine ⟨?_, ?_⟩
        · simp only [resolveRun, if_pos hterm, stContent, runBuf,
            List.flatten_append, List.flatten_cons, List.flatten_nil,
            List.append_nil, List.append_assoc, nonWS_append, hnilbuf]
          simp
        · intro d hd
          simp only [resolveRun, if_pos hterm, runBuf] at hd
          cases hd
      · by_cases hcnt : 2 ≤ countNl buf
        · refine ⟨?_, ?_⟩
          · simp only [resolveRun, if_neg hterm, if_pos hcnt, stContent, runBuf,
              List.flatten_append, List.flatten_cons, List.flatten_nil,
              List.append_nil, List.append_assoc, nonWS_append, hnilbuf,
              hbef, haft]
            simp
          · intro d hd
            simp only [resolveRun, if_neg hterm, if_pos hcnt, runBuf] at hd
            cases hd
        · refine ⟨?_, ?_⟩
          · simp only [resolveRun, if_neg hterm, if_neg hcnt, stContent, runBuf,
              List.append_nil, List.append_assoc, nonWS_append, hnilbuf]
          · intro d hd
            simp only [resolveRun, if_neg hterm, if_neg hcnt, runBuf] at hd
            cases hd

theorem finishSplit_flatten_nonWS {st : SplitState} (hws : RunWS st) :
    nonWS ((finishSplit st).flatten) = nonWS (stContent st) := by
  obtain ⟨parts, cur, run, prev⟩ := st
  rcases run with _ | ⟨p, buf⟩
  · simp [finishSplit, stContent, runBuf]
  · have hbuf : ∀ d ∈ buf, isPySpace d = true := by
      intro d hd
      exact hws d (by simpa [runBuf] using hd)
    have hnilbuf : nonWS buf = [] := nonWS_eq_nil_of_allWS hbuf
    have hbef : nonWS (beforeFirstNl buf) = [] :=
      nonWS_eq_nil_of_allWS (fun d hd => hbuf d (mem_of_mem_beforeFirstNl hd))
    have haft : nonWS (afterLastNl buf) = [] :=
      nonWS_eq_nil_of_allWS (fun d hd => hbuf d (mem_of_mem_afterLastNl hd))
    by_cases hterm : isTermPrev p = true
    · simp only [finishSplit, if_pos hterm, stContent, runBuf,
        List.flatten_append, List.flatten_cons, List.flatten_nil,
        List.append_nil, List.append_assoc, nonWS_append, hnilbuf]
    · by_cases hcnt : 2 ≤ countNl buf
      · simp only [finishSplit, if_neg hterm, if_pos hcnt, stContent, runBuf,
          List.flatten_append, List.flatten_cons, List.flatten_nil,
          List.append_nil, List.append_assoc, nonWS_append, hnilbuf, hbef, haft]
      · simp only [finishSplit, if_neg hterm, if_neg hcnt, stContent, runBuf,
          List.flatten_append, List.flatten_cons, List.flatten_nil,
          List.append_nil, List.append_assoc, nonWS_append, hnilbuf]

theorem foldl_stepSplit_content :
    ∀ (cs : List Char) (st : SplitState), RunWS st →
      nonWS (stContent (cs.foldl stepSplit st)) = nonWS (stContent st ++ cs) ∧
        RunWS (cs.foldl stepSplit st) := by
  intro cs
  induction cs with
  | nil => intro st h; simp [h]
  | cons c rest ih =>
    intro st h
    rw [List.foldl_cons]
    obtain ⟨h1, h2⟩ := stepSplit_content h c
    obtain ⟨h3, h4⟩ := ih (stepSplit st c) h2
    refine ⟨?_, h4⟩
    have hcr : nonWS (c :: rest) = nonWS [c] ++ nonWS rest := nonWS_append [c] rest
    rw [h3, nonWS_append, h1, nonWS_append, nonWS_append, hcr, List.append_assoc]

theorem pysplit_flatten_nonWS (cs : List Char) :
    nonWS ((pysplit cs).flatten) = nonWS cs := by
  unfold pysplit
  have hinit : RunWS ⟨[], [], none, none⟩ := by
    intro d hd; unfold runBuf at hd; cases hd
  obtain ⟨h1, h2⟩ := foldl_stepSplit_content cs ⟨[], [], none, none⟩ hinit
  rw [finishSplit_flatten_nonWS h2, h1]
  unfold stContent runBuf
  simp

/-! Content preservation and chunk nonemptiness of the greedy
accumulation loops. -/

theorem isPySpace_space : isPySpace ' ' = true := by decide

theorem noEdgeWS_of_not_ws {l : List Char}
    (h : ∀ c ∈ l, isPySpace c = false) : NoEdgeWS l :=
  ⟨fun c hc => h c (List.mem_of_mem_head? hc),
   fun c hc => h c (List.mem_of_mem_getLast? hc)⟩

theorem processWord_content (max_chars : Nat)
    (st : List (List Char) × List Char) (word : List Char) :
    nonWS ((processWord max_chars st word).1.flatten
        ++ (processWord max_chars st word).2)
      = nonWS (st.1.flatten ++ st.2) ++ nonWS word := by
  obtain ⟨chunks, temp⟩ := st
  unfold processWord
  by_cases hfit : (temp ++ ' ' :: word).length ≤ max_chars
  · rw [if_pos hfit]
    by_cases ht : temp = []
    · subst ht; simp [nonWS_append]
    · simp only [ne_eq, ht, not_false_eq_true, if_pos]
      simp [nonWS_append, nonWS_cons_ws isPySpace_space, List.append_assoc]
  · rw [if_neg hfit]
    by_cases ht : temp = []
    · subst ht; simp [nonWS_append]
    · simp only [ne_eq, ht, not_false_eq_true, if_pos]
      simp [nonWS_append, nonWS_pystrip, List.append_assoc]

theorem foldl_processWord_content (max_chars : Nat) :
    ∀ (wl : List (List Char)) (st : List (List Char) × List Char),
      nonWS ((wl.foldl (processWord max_chars) st).1.flatten
          ++ (wl.foldl (processWord max_chars) st).2)
        = nonWS (st.1.flatten ++ st.2) ++ nonWS wl.flatten := by
  intro wl
  induction wl with
  | nil => intro st; simp [nonWS_nil]
  | cons w t ih =>
    intro st
    rw [List.foldl_cons, ih (processWord max_chars st w),
      processWord_content, List.flatten_cons, nonWS_append, nonWS_append]
    simp [List.append_assoc]

/-- Invariant of the greedy loops: chunks already committed are nonempty,
and the chunk being built is empty or nonempty without edge whitespace. -/
def ChunksInv (st : List (List Char) × List Char) : Prop :=
  (∀ c ∈ st.1, c ≠ []) ∧ (st.2 = [] ∨ (st.2 ≠ [] ∧ NoEdgeWS st.2))

theorem processWord_inv {max_chars : Nat}
    {st : List (List Char) × List Char} {word : List Char}
    (hst : ChunksInv st) (hw : word ≠ []) (hwc : ∀ c ∈ word, isPySpace c = false) :
    ChunksInv (processWord max_chars st word) := by
  obtain ⟨chunks, temp⟩ := st
  obtain ⟨h1, h2⟩ := hst
  have hwedge : NoEdgeWS word := noEdgeWS_of_not_ws hwc
  unfold processWord
  by_cases hfit : (temp ++ ' ' :: word).length ≤ max_chars
  · rw [if_pos hfit]
    by_cases ht : temp = []
    · subst ht
      exact ⟨h1, Or.inr ⟨hw, hwedge⟩⟩
    · simp only [ne_eq, ht, not_false_eq_true, if_pos]
      refine ⟨h1, Or.inr ⟨by simp [ht], ?_⟩⟩
      rcases h2 with h2 | ⟨_, hedge⟩
      · exact absurd h2 ht
      · exact noEdgeWS_join_space ht hw hedge hwedge
  · rw [if_neg hfit]
    by_cases ht : temp = []
    · subst ht
      exact ⟨h1, Or.inr ⟨hw, hwedge⟩⟩
    · simp only [ne_eq, ht, not_false_eq_true, if_pos]
      refine ⟨?_, Or.inr ⟨hw, hwedge⟩⟩
      intro c hc
      rcases List.mem_append.1 hc with hm | hm
      · exact h1 c hm
      · rcases List.mem_singleton.1 hm with rfl
        rcases h2 with h2 | ⟨_, hedge⟩
        · exact absurd h2 ht
        · exact pystrip_ne_nil ht hedge

theorem foldl_processWord_inv {max_chars : Nat} :
    ∀ {wl : List (List Char)} {st : List (List Char) × List Char},
      ChunksInv st → (∀ w ∈ wl, w ≠ [] ∧ ∀ c ∈ w, isPySpace c = false) →
      ChunksInv (wl.foldl (processWord max_chars) st) := by
  intro wl
  induction wl with
  | nil => intro st h _; exact h
  | cons w t ih =>
    intro st h hws
    rw [List.foldl_cons]
    exact ih (processWord_inv h (hws w (List.mem_cons_self ..)).1
        (hws w (List.mem_cons_self ..)).2)
      (fun x hx => hws x (List.mem_cons_of_mem _ hx))

theorem processSentence_content (max_chars : Nat)
    (st : List (List Char) × List Char) (s : List Char) :
    nonWS ((processSentence max_chars st s).1.flatten
        ++ (processSentence max_chars st s).2)
      = nonWS (st.1.flatten ++ st.2) ++ nonWS s := by
  obtain ⟨chunks, cur⟩ := st
  unfold processSentence
  by_cases hs : pystrip s = []
  · rw [if_pos hs]
    have : nonWS s = [] := by rw [← nonWS_pystrip, hs]; rfl
    simp [this]
  · rw [if_neg hs]
    have hnw : nonWS (pystrip s) = nonWS s := nonWS_pystrip s
    by_cases hover : max_chars < (cur ++ ' ' :: pystrip s).length
    · rw [if_pos hover]
      by_cases hcur : cur = []
      · subst hcur
        simp only [ne_eq, not_true_eq_false, if_neg, not_false_eq_true]
        have hfold := foldl_processWord_content max_chars (pywords (pystrip s))
          (chunks, [])
        by_cases hr : ((pywords (pystrip s)).foldl (processWord max_chars)
            (chunks, [])).2 = []
        · simp only [ne_eq, hr, not_true_eq_false, if_neg, not_false_eq_true]
          rw [show ((pywords (pystrip s)).foldl (processWord max_chars)
              (chunks, [])).1.flatten ++ ([] : List Char)
              = ((pywords (pystrip s)).foldl (processWord max_chars)
                (chunks, [])).1.flatten ++ ((pywords (pystrip s)).foldl
                  (processWord max_chars) (chunks, [])).2 by rw [hr]]
          rw [hfold, pywords_flatten_nonWS, hnw]
        · simp only [ne_eq, hr, not_false_eq_true, if_pos]
          rw [hfold, pywords_flatten_nonWS, hnw]
      · simp only [ne_eq, hcur, not_false_eq_true, if_pos]
        simp [nonWS_append, nonWS_pystrip, hnw]
    · rw [if_neg hover]
      by_cases hcur : cur = []
      · subst hcur
        simp [nonWS_append, hnw]
      · simp only [ne_eq, hcur, not_false_eq_true, if_pos]
        simp [nonWS_append, nonWS_cons_ws isPySpace_space, hnw,
          List.append_assoc]

theorem processSentence_inv {max_chars : Nat}
    {st : List (List Char) × List Char} (s : List Char)
    (hst : ChunksInv st) : ChunksInv (processSentence max_chars st s) := by
  obtain ⟨chunks, cur⟩ := st
  obtain ⟨h1, h2⟩ := hst
  unfold processSentence
  by_cases hs : pystrip s = []
  · rw [if_pos hs]; exact ⟨h1, h2⟩
  · rw [if_neg hs]
    have hsedge : NoEdgeWS (pystrip s) := noEdgeWS_pystrip s
    by_cases hover : max_chars < (cur ++ ' ' :: pystrip s).length
    · rw [if_pos hover]
      by_cases hcur : cur = []
      · subst hcur
        simp only [ne_eq, not_true_eq_false, if_neg, not_false_eq_true]
        have hfold : ChunksInv ((pywords (pystrip s)).foldl
            (processWord max_chars) (chunks, [])) :=
          foldl_processWord_inv ⟨h1, Or.inl rfl⟩ (pywords_sound (pystrip s))
        by_cases hr : ((pywords (pystrip s)).foldl (processWord max_chars)
            (chunks, [])).2 = []
        · simp only [ne_eq, hr, not_true_eq_false, if_neg, not_false_eq_true]
          exact ⟨hfold.1, Or.inl rfl⟩
        · simp only [ne_eq, hr, not_false_eq_true, if_pos]
          exact ⟨hfold.1, hfold.2⟩
      · simp only [ne_eq, hcur, not_false_eq_true, if_pos]
        refine ⟨?_, Or.inr ⟨hs, hsedge⟩⟩
        intro c hc
        rcases List.mem_append.1 hc with hm | hm
        · exact h1 c hm
        · rcases List.mem_singleton.1 hm with rfl
          rcases h2 with h2 | ⟨hne, hedge⟩
          · exact absurd h2 hcur
          · exact pystrip_ne_nil hne hedge
    · rw [if_neg hover]
      by_cases hcur : cur = []
      · subst hcur
        simp only [ne_eq, not_true_eq_false, if_neg, not_false_eq_true]
        exact ⟨h1, Or.inr ⟨hs, hsedge⟩⟩
      · simp only [ne_eq, hcur, not_false_eq_true, if_pos]
        rcases h2 with h2 | ⟨hne, hedge⟩
        · exact absurd h2 hcur
        · exact ⟨h1, Or.inr ⟨by simp [hcur],
            noEdgeWS_join_space hne hs hedge hsedge⟩⟩

theorem foldl_processSentence_content (max_chars : Nat) :
    ∀ (ss : List (List Char)) (st : List (List Char) × List Char),
      nonWS ((ss.foldl (processSentence max_chars) st).1.flatten
          ++ (ss.foldl (processSentence max_chars) st).2)
        = nonWS (st.1.flatten ++ st.2) ++ nonWS ss.flatten := by
  intro ss
  induction ss with
  | nil => intro st; simp [nonWS_nil]
  | cons s t ih =>
    intro st
    rw [List.foldl_cons, ih (processSentence max_chars st s),
      processSentence_content, List.flatten_cons, nonWS_append, nonWS_append]
    simp [List.append_assoc]

theorem foldl_processSentence_inv {max_chars : Nat} :
    ∀ {ss : List (List Char)} {st : List (List Char) × List Char},
      ChunksInv st → ChunksInv (ss.foldl (processSentence max_chars) st) := by
  intro ss
  induction ss with
  | nil => intro st h; exact h
  | cons s t ih =>
    intro st h
    rw [List.foldl_cons]
    exact ih (processSentence_inv s h)

theorem closeChunks_flatten_nonWS (st : List (List Char) × List Char) :
    nonWS ((closeChunks st).flatten) = nonWS (st.1.flatten ++ st.2) := by
  obtain ⟨chunks, cur⟩ := st
  unfold closeChunks
  by_cases hr : cur = []
  · subst hr
    simp [nonWS_append, nonWS_nil]
  · simp only [ne_eq, hr, not_false_eq_true, if_pos]
    rw [List.flatten_append, List.flatten_cons, List.flatten_nil,
      List.append_nil, nonWS_append, nonWS_pystrip, nonWS_append]

theorem closeChunks_ne_nil {st : List (List Char) × List Char}
    (hinv : ChunksInv st) : ∀ c ∈ closeChunks st, c ≠ [] := by
  obtain ⟨chunks, cur⟩ := st
  unfold closeChunks
  by_cases hr : cur = []
  · subst hr
    simpa using hinv.1
  · simp only [ne_eq, hr, not_false_eq_true, if_pos]
    intro c hc
    rcases List.mem_append.1 hc with hm | hm
    · exact hinv.1 c hm
    · rcases List.mem_singleton.1 hm with rfl
      rcases hinv.2 with h2 | ⟨hne, hedge⟩
      · exact absurd h2 hr
      · exact pystrip_ne_nil hne hedge

theorem buildChunks_flatten_nonWS (text : List Char) (max_chars : Nat) :
    nonWS ((buildChunks text max_chars).flatten) = nonWS text := by
  unfold buildChunks
  rw [closeChunks_flatten_nonWS, foldl_processSentence_content,
    pysplit_flatten_nonWS, nonWS_pystrip]
  simp [nonWS_nil]

theorem buildChunks_ne_nil (text : List Char) (max_chars : Nat) :
    ∀ c ∈ buildChunks text max_chars, c ≠ [] := by
  unfold buildChunks
  exact closeChunks_ne_nil (foldl_processSentence_inv
    ⟨fun _ hc => absurd hc (List.not_mem_nil _), Or.inl rfl⟩)

theorem chunk_text_flatMap_flatten {l : List (List Char)} {max_chars : Nat}
    (h : 1 ≤ max_chars) :
    (l.flatMap (fun chunk => if chunk.length ≤ max_chars then [chunk]
        else pyslices chunk max_chars)).flatten = l.flatten := by
  induction l with
  | nil => rfl
  | cons c t ih =>
    rw [List.flatMap_cons, List.flatten_append, ih, List.flatten_cons]
    by_cases hc : c.length ≤ max_chars
    · rw [if_pos hc]; simp
    · rw [if_neg hc, pyslices_flatten h]

theorem nonWS_intercalate_space (xs : List (List Char)) :
    nonWS (List.intercalate [' '] xs) = nonWS xs.flatten := by
  rw [show List.intercalate [' '] xs = (List.intersperse [' '] xs).flatten
    from rfl]
  induction xs with
  | nil => rfl
  | cons x t ih =>
    cases t with
    | nil => rfl
    | cons y u =>
      rw [List.intersperse_cons_cons, List.flatten_cons, List.flatten_cons,
        nonWS_append, nonWS_append, ih, nonWS_cons_ws isPySpace_space,
        List.flatten_cons, nonWS_append]
      simp [nonWS_nil, nonWS_append]

/-! Claim theorems about the text chunker. -/

/-- C1: for every input string and every positive maximum character count,
every chunk produced by the text chunker has length less than or equal to
the maximum. -/
theorem chunk_text_bound (text : List Char) (max_chars : Nat)
    (h : 1 ≤ max_chars) :
    ∀ c ∈ chunk_text text max_chars, c.length ≤ max_chars := by
  intro c hc
  unfold chunk_text at hc
  by_cases hfast : text.length ≤ max_chars
  · rw [if_pos hfast] at hc
    rcases List.mem_singleton.1 hc with rfl
    exact hfast
  · rw [if_neg hfast] at hc
    rcases List.mem_flatMap.1 hc with ⟨chunk, _, hc2⟩
    by_cases hle : chunk.length ≤ max_chars
    · rw [if_pos hle] at hc2
      rcases List.mem_singleton.1 hc2 with rfl
      exact hle
    · rw [if_neg hle] at hc2
      exact slicesFuel_length_le _ _ _ c hc2

/-- Witness for C1 at a concrete input. -/
theorem chunk_text_bound_witness :
    1 ≤ 5 ∧ ∀ c ∈ chunk_text ("hello. world".data) 5, c.length ≤ 5 :=
  ⟨by decide, chunk_text_bound (("hello. world").data) 5 (by decide)⟩

/-- C2: for every input string and every positive maximum, joining all
chunks produced by the text chunker with single spaces yields a string
whose non-whitespace characters, in order, equal the non-whitespace
characters of the original input. -/
theorem chunk_text_reassembly (text : List Char) (max_chars : Nat)
    (h : 1 ≤ max_chars) :
    nonWS (List.intercalate [' '] (chunk_text text max_chars)) = nonWS text := by
  rw [nonWS_intercalate_space]
  unfold chunk_text
  by_cases hfast : text.length ≤ max_chars
  · rw [if_pos hfast]
    simp
  · rw [if_neg hfast, chunk_text_flatMap_flatten h, buildChunks_flatten_nonWS]

/-- Witness for C2 at a concrete input. -/
theorem chunk_text_reassembly_witness :
    1 ≤ 4 ∧ nonWS (List.intercalate [' '] (chunk_text ("one two three".data) 4))
      = nonWS ("one two three".data) :=
  ⟨by decide, chunk_text_reassembly (("one two three").data) 4 (by decide)⟩

/-- C9 counterexample: the empty input string with positive maximum 1 is
returned by the fast path as a single empty chunk, so the chunker does
produce an empty chunk. -/
theorem chunk_text_empty_input_counterexample :
    ¬ (∀ c ∈ chunk_text ([] : List Char) 1, c ≠ []) := by decide

/-- C9 (amended): for every nonempty input string and every positive
maximum character count, no chunk produced by the text chunker is empty. -/
theorem chunk_text_ne_nil (text : List Char) (max_chars : Nat)
    (htext : text ≠ []) (h : 1 ≤ max_chars) :
    ∀ c ∈ chunk_text text max_chars, c ≠ [] := by
  intro c hc
  unfold chunk_text at hc
  by_cases hfast : text.length ≤ max_chars
  · rw [if_pos hfast] at hc
    rcases List.mem_singleton.1 hc with rfl
    exact htext
  · rw [if_neg hfast] at hc
    rcases List.mem_flatMap.1 hc with ⟨chunk, hmem, hc2⟩
    by_cases hle : chunk.length ≤ max_chars
    · rw [if_pos hle] at hc2
      rcases List.mem_singleton.1 hc2 with rfl
      exact buildChunks_ne_nil text max_chars _ hmem
    · rw [if_neg hle] at hc2
      exact slicesFuel_ne_nil _ _ _ h c hc2

/-- Witness for the amended C9 at a concrete input. -/
theorem chunk_text_ne_nil_witness :
    (("ab".data) ≠ ([] : List Char) ∧ 1 ≤ 1) ∧
      ∀ c ∈ chunk_text ("ab".data) 1, c ≠ [] :=
  ⟨⟨by decide, by decide⟩, chunk_text_ne_nil (("ab").data) 1 (by decide) (by decide)⟩

/-! Claim theorems about the synthesis adapters. -/

/-- A Sarvam environment whose backend call always fails. -/
def sarvamEnvAllFail : SarvamEnv :=
  { convert := fun _ _ => .error ("boom".data)
    fromWav := fun _ => none
    fromMp3 := fun _ => none
    fromRaw := fun _ _ => [] }

/-- A Sarvam environment that fails exactly on the second chunk. -/
def sarvamEnvFailSecond : SarvamEnv :=
  { convert := fun i _ => if i = 1 then .error ("boom".data) else .ok [7]
    fromWav := fun b => some b
    fromMp3 := fun _ => none
    fromRaw := fun b _ => b }

/-- A 300-character input, chunked at `TTS_MAX_CHARS = 250` into two
chunks. -/
def longText : List Char := List.replicate 300 'a'

/-- A whitespace-only input longer than `TTS_MAX_CHARS`, for which the
chunker yields no chunks at all. -/
def blankText : List Char := List.replicate 251 ' '

/-- C3 counterexample: a synthesis call with a single chunk whose (only)
backend call fails propagates the failure to the caller instead of
substituting silence — the single-chunk path of
`synthesize_speech_sarvam` has no exception handler. -/
theorem sarvam_single_chunk_failure_counterexample :
    synthesize_speech_sarvam sarvamEnvAllFail ("hi".data) 24000
      = .error ("boom".data) := by rfl

/-- C3 (amended): for every multi-chunk synthesis call the adapter
returns merged audio — a per-chunk backend failure is never surfaced —
and every chunk whose backend call fails contributes exactly one second
(1000 ms) of silence as its segment. -/
theorem sarvam_multichunk_failure_silenced (env : SarvamEnv)
    (text : List Char) (sample_rate : Int)
    (h2 : 2 ≤ (chunk_text text TTS_MAX_CHARS).length) :
    synthesize_speech_sarvam env text sample_rate
      = .ok (merge_with_gaps ((chunk_text text TTS_MAX_CHARS).enum.map
          (fun p => sarvam_chunk_segment env p.1 p.2 sample_rate)))
    ∧ ∀ i chunk e, env.convert i chunk = .error e →
        sarvam_chunk_segment env i chunk sample_rate
          = List.replicate 1000 0 := by
  constructor
  · have hchunks : ¬ (chunk_text text TTS_MAX_CHARS).length = 1 := by omega
    have hne : ¬ (chunk_text text TTS_MAX_CHARS).enum.map
        (fun p => sarvam_chunk_segment env p.1 p.2 sample_rate) = [] := by
      intro hmap
      have henum := List.map_eq_nil_iff.mp hmap
      have hlen : (chunk_text text TTS_MAX_CHARS).enum.length = 0 := by
        rw [henum]; rfl
      rw [List.enum_length] at hlen
      omega
    simp only [synthesize_speech_sarvam]
    rw [if_neg hchunks, if_neg hne]
  · intro i chunk e he
    simp [sarvam_chunk_segment, he]

/-- Witness for the amended C3 at a concrete input and environment. -/
theorem sarvam_multichunk_failure_silenced_witness :
    2 ≤ (chunk_text longText TTS_MAX_CHARS).length ∧
      (synthesize_speech_sarvam sarvamEnvFailSecond longText 24000
        = .ok (merge_with_gaps ((chunk_text longText TTS_MAX_CHARS).enum.map
            (fun p => sarvam_chunk_segment sarvamEnvFailSecond p.1 p.2 24000)))
      ∧ ∀ i chunk e, sarvamEnvFailSecond.convert i chunk = .error e →
          sarvam_chunk_segment sarvamEnvFailSecond i chunk 24000
            = List.replicate 1000 0) :=
  ⟨by decide,
   sarvam_multichunk_failure_silenced sarvamEnvFailSecond longText 24000
     (by decide)⟩

/-- C4 counterexample: a two-chunk synthesis call in which the backend
call fails for every chunk (total backend failure) does not raise: it
returns 2200 ms of pure silence (two 1000 ms silence substitutes joined
by the 200 ms gap). -/
theorem sarvam_total_backend_failure_counterexample :
    synthesize_speech_sarvam sarvamEnvAllFail longText 24000
      = .ok (List.replicate 2200 (0 : Nat)) := by rfl

/-- C4 (amended): the adapter raises the fatal
"Failed to generate audio with Sarvam" error exactly in the
zero-segments case, which occurs when the chunker yields no chunks at
all (total backend failure instead yields silence segments). -/
theorem sarvam_zero_segments_raises (env : SarvamEnv) (text : List Char)
    (sample_rate : Int) (h : chunk_text text TTS_MAX_CHARS = []) :
    synthesize_speech_sarvam env text sample_rate
      = .error ("Failed to generate audio with Sarvam".data) := by
  simp only [synthesize_speech_sarvam, h]
  rfl

/-- Witness for the amended C4 at a concrete input. -/
theorem sarvam_zero_segments_raises_witness :
    chunk_text blankText TTS_MAX_CHARS = [] ∧
      synthesize_speech_sarvam sarvamEnvAllFail blankText 24000
        = .error ("Failed to generate audio with Sarvam".data) :=
  ⟨by decide,
   sarvam_zero_segments_raises sarvamEnvAllFail blankText 24000 (by decide)⟩

/-! Claim theorems about the cache key, the orchestrator and voice
selection. -/

/-- C5: the audio-cache fingerprint of the /tts endpoint is computed
without `speech_sample_rate` and `enable_preprocessing`, so any two
requests differing only in these audio-affecting fields receive the same
fingerprint and serve each other's cached audio. -/
theorem tts_cache_key_ignores_sarvam_params (r : TTSRequest) (sr : Int)
    (ep : Bool) :
    tts_cache_key { r with speech_sample_rate := sr,
                           enable_preprocessing := ep }
      = tts_cache_key r := rfl

/-- A TTS environment with trivial (always succeeding) oracles. -/
def trivialTTSEnv : TTSEnv :=
  { translate := fun text _ _ => text
    sarvam :=
      { convert := fun _ _ => .ok [1]
        fromWav := fun b => some b
        fromMp3 := fun _ => none
        fromRaw := fun b _ => b }
    polly :=
      { configured := true
        synth := fun _ _ => .ok [2]
        fromMp3 := fun b => some b
        fromWav := fun b => some b
        fromRaw := fun b => b } }

/-- A request for the regional language code "hi-IN" (the default). -/
def reqHindi : TTSRequest := { input_text := ("hi".data) }

/-- C6: on a cache miss the orchestrator routes synthesis to the Sarvam
backend for every target language in the fixed `INDIAN_LANGUAGES` set
and to the Polly backend for every other language code. -/
theorem tts_backend_routing (env : TTSEnv)
    (cache : List ((List Char × List (List Char × PyVal)) × List Nat))
    (r : TTSRequest)
    (hmiss : lookupKey (tts_cache_key r) cache = none) :
    (r.target_lang ∈ INDIAN_LANGUAGES →
        text_to_speech env cache r = sarvam_branch env r)
    ∧ (r.target_lang ∉ INDIAN_LANGUAGES →
        text_to_speech env cache r = polly_branch env r) := by
  constructor
  · intro hmem
    have ht : is_indian_language r.target_lang = true := decide_eq_true hmem
    simp only [text_to_speech, hmiss, ht, if_true]
  · intro hmem
    have ht : is_indian_language r.target_lang = false := decide_eq_false hmem
    simp only [text_to_speech, hmiss, ht]
    rfl

/-- Witness for C6 at a concrete request and environment. -/
theorem tts_backend_routing_witness :
    (reqHindi.target_lang ∈ INDIAN_LANGUAGES →
        text_to_speech trivialTTSEnv [] reqHindi
          = sarvam_branch trivialTTSEnv reqHindi)
    ∧ (reqHindi.target_lang ∉ INDIAN_LANGUAGES →
        text_to_speech trivialTTSEnv [] reqHindi
          = polly_branch trivialTTSEnv reqHindi) :=
  tts_backend_routing trivialTTSEnv [] reqHindi (by rfl)

/-- A TTS environment whose translator returns a fixed marker string. -/
def markerTTSEnv : TTSEnv :=
  { trivialTTSEnv with translate := fun _ _ _ => ("TRANSLATED".data) }

/-- A request whose source language equals its target language as full
codes. -/
def reqSameLang : TTSRequest :=
  { input_text := ("namaste".data)
    source_lang := ("hi-IN".data)
    target_lang := ("hi-IN".data) }

/-- C7 counterexample: for a request with source language equal to the
target language ("hi-IN" = "hi-IN", source not "auto"), the orchestrator
still translates — the text handed to synthesis is the translator's
output, not the unchanged input — because the code compares the source
code against only the primary subtag `target_lang.split('-')[0]`. -/
theorem translation_despite_equal_langs_counterexample :
    reqSameLang.source_lang = reqSameLang.target_lang ∧
      reqSameLang.source_lang ≠ ("auto".data) ∧
      speak_text markerTTSEnv reqSameLang ≠ reqSameLang.input_text := by decide

/-- C7 (amended): the orchestrator skips translation exactly when the
source language is not "auto" and equals the primary subtag (the part
before "-") of the target language; the input text then reaches
synthesis unchanged. -/
theorem no_translation_iff_primary_subtag_match (env : TTSEnv)
    (r : TTSRequest) (h1 : r.source_lang ≠ ("auto".data))
    (h2 : r.source_lang = primaryTag r.target_lang) :
    speak_text env r = r.input_text := by
  unfold speak_text
  rw [if_neg (fun hor => hor.elim h1 (fun hne => hne h2))]

/-- A request whose source language is the bare primary subtag of its
target language. -/
def reqPrimaryMatch : TTSRequest :=
  { input_text := ("namaste".data)
    source_lang := ("hi".data)
    target_lang := ("hi-IN".data) }

/-- Witness for the amended C7 at a concrete request. -/
theorem no_translation_iff_primary_subtag_match_witness :
    (reqPrimaryMatch.source_lang ≠ ("auto".data) ∧
      reqPrimaryMatch.source_lang = primaryTag reqPrimaryMatch.target_lang) ∧
      speak_text markerTTSEnv reqPrimaryMatch = reqPrimaryMatch.input_text :=
  ⟨⟨by decide, by decide⟩,
   no_translation_iff_primary_subtag_match markerTTSEnv reqPrimaryMatch
     (by decide) (by decide)⟩

/-- The voice list of the default language en-US in the static table. -/
def enUSVoices : List (List Char) :=
  (lookupKey ("en-US".data) POLLY_LANGUAGES).getD []

theorem lookupKey_enUS :
    lookupKey ("en-US".data) POLLY_LANGUAGES = some enUSVoices := by rfl

/-- C8 counterexample: for the unsupported language code "xx-XX" with
requested voice "Matthew", voice selection returns "Matthew" (a voice of
the fallback language en-US), not the default language's first voice
"Joanna". -/
theorem polly_voice_returns_requested_counterexample :
    lookupKey ("xx-XX".data) POLLY_LANGUAGES = none ∧
      get_polly_voice ("xx-XX".data) (some ("Matthew".data))
        = some ("Matthew".data) ∧
      ("Matthew".data) ≠ ("Joanna".data) := by decide

/-- C8 (amended): for every request whose target language code is not in
the static voice table, voice selection falls back to the default
language en-US: it returns the requested voice whenever that is a truthy
en-US voice, and otherwise en-US's first voice "Joanna". -/
theorem polly_voice_unsupported_fallback (lang : List Char)
    (rv : Option (List Char)) (h : lookupKey lang POLLY_LANGUAGES = none) :
    get_polly_voice lang rv = get_polly_voice ("en-US".data) rv
    ∧ ((pyTruthy rv && decide ((rv.getD []) ∈ enUSVoices)) = false →
        get_polly_voice lang rv = some ("Joanna".data)) := by
  have hred : get_polly_voice lang rv
      = (if pyTruthy rv && decide ((rv.getD []) ∈ enUSVoices) then rv
         else enUSVoices.head?) := by
    simp only [get_polly_voice, h, lookupKey_enUS]
    rfl
  constructor
  · rw [hred]
    simp only [get_polly_voice, lookupKey_enUS]
    rfl
  · intro hfalse
    rw [hred, if_neg (by simp [hfalse])]
    rfl

/-- Witness for the amended C8 at a concrete language code. -/
theorem polly_voice_unsupported_fallback_witness :
    lookupKey ("xx-XX".data) POLLY_LANGUAGES = none ∧
      (get_polly_voice ("xx-XX".data) none
          = get_polly_voice ("en-US".data) none
      ∧ ((pyTruthy none &&
            decide (((none : Option (List Char)).getD []) ∈ enUSVoices))
            = false →
          get_polly_voice ("xx-XX".data) none = some ("Joanna".data))) :=
  ⟨by decide, polly_voice_unsupported_fallback (("xx-XX").data) none (by decide)⟩

theorem lookupKey_mem {α β : Type} [DecidableEq α] {k : α} {b : β} :
    ∀ {l : List (α × β)}, lookupKey k l = some b → (k, b) ∈ l := by
  intro l
  induction l with
  | nil => intro h; cases h
  | cons p t ih =>
    intro h
    obtain ⟨a, v⟩ := p
    rw [lookupKey] at h
    by_cases ha : a = k
    · rw [if_pos ha] at h
      injection h with h
      subst ha
      subst h
      exact List.mem_cons_self ..
    · rw [if_neg ha] at h
      exact List.mem_cons_of_mem _ (ih h)

/-- C10: Polly voice selection is total and closed over the static voice
table: for every language code and every optional requested voice it
returns a voice, and the returned voice belongs to the voice list of a
table entry — the requested voice itself, or the first voice of the
(possibly defaulted) language's entry. -/
theorem get_polly_voice_total (lang : List Char) (rv : Option (List Char)) :
    ∃ lc voices v, lookupKey lc POLLY_LANGUAGES = some voices ∧
      get_polly_voice lang rv = some v ∧ v ∈ voices ∧
      (rv = some v ∨ voices.head? = some v) := by
  by_cases hl : lookupKey lang POLLY_LANGUAGES = none
  · refine ⟨("en-US".data), enUSVoices, ?_⟩
    have hred : get_polly_voice lang rv
        = (if pyTruthy rv && decide ((rv.getD []) ∈ enUSVoices) then rv
           else enUSVoices.head?) := by
      simp only [get_polly_voice, hl, lookupKey_enUS]
      rfl
    by_cases hva : (pyTruthy rv && decide ((rv.getD []) ∈ enUSVoices)) = true
    · cases rv with
      | none => simp [pyTruthy] at hva
      | some v =>
        refine ⟨v, lookupKey_enUS, ?_, ?_, Or.inl rfl⟩
        · rw [hred, if_pos hva]
        · have hva' := hva
          simp only [Bool.and_eq_true] at hva'
          exact of_decide_eq_true hva'.2
    · refine ⟨("Joanna".data), lookupKey_enUS, ?_, ?_, Or.inr (by rfl)⟩
      · rw [hred, if_neg hva]
        rfl
      · decide
  · obtain ⟨voices, hv⟩ : ∃ voices, lookupKey lang POLLY_LANGUAGES
        = some voices := by
      cases ho : lookupKey lang POLLY_LANGUAGES with
      | none => exact absurd ho hl
      | some voices => exact ⟨voices, rfl⟩
    refine ⟨lang, voices, ?_⟩
    have hred : get_polly_voice lang rv
        = (if pyTruthy rv && decide ((rv.getD []) ∈ voices) then rv
           else voices.head?) := by
      simp only [get_polly_voice, hv]
      rw [if_neg (Option.some_ne_none voices), hv]
    have hvne : voices ≠ [] := by
      have hall : ∀ p ∈ POLLY_LANGUAGES, p.2 ≠ [] := by decide
      exact hall (lang, voices) (lookupKey_mem hv)
    by_cases hva : (pyTruthy rv && decide ((rv.getD []) ∈ voices)) = true
    · cases rv with
      | none => simp [pyTruthy] at hva
      | some v =>
        refine ⟨v, hv, ?_, ?_, Or.inl rfl⟩
        · rw [hred, if_pos hva]
        · have hva' := hva
          simp only [Bool.and_eq_true] at hva'
          exact of_decide_eq_true hva'.2
    · cases voices with
      | nil => exact absurd rfl hvne
      | cons v0 vt =>
        refine ⟨v0, hv, ?_, List.mem_cons_self .., Or.inr rfl⟩
        rw [hred, if_neg hva]
        rfl

end SarvamTTS
